import Mathlib

/-!
Shallow embedding of the streaming request-body core of
src/quart/wrappers/request.py: the Body class (an asyncio.Future for the
assembled body combined with an asyncio.Queue of pending chunks), the
Request constructor's content-length validation, and the form-data
loading logic.  Concurrency is modelled sequentially: each producer or
consumer call is one atomic step on the explicit Body state, and traces
of such steps represent the interleavings of the single producer with
the consumer.
-/

namespace Quart

/-- Byte strings are modelled as lists of byte values. -/
abbrev Bytes := List Nat

/-- Errors raised by the embedded Python code paths. -/
inductive PyErr where
  | requestEntityTooLarge
  | valueError
  | invalidStateError
deriving DecidableEq, Repr

/-- State of the `Body` class from src/quart/wrappers/request.py:
`body` is the asyncio.Future `_body` (`none` while not done, `some v`
once its result is set), `stream` is the asyncio.Queue `_stream` as an
ordered list of chunks (head = front of the queue), `size` is `_size`
(a Python int, so `Int`), and `max_content_length` is
`_max_content_length`. -/
structure Body where
  body : Option Bytes
  stream : List Bytes
  size : Int
  max_content_length : Option Int
deriving DecidableEq, Repr

/-- `Body.__init__`: empty future, empty queue, size 0. -/
def Body.init (max_content_length : Option Int) : Body :=
  { body := none, stream := [], size := 0, max_content_length := max_content_length }

/-- `Body.append`: enqueue the chunk, add its length to `_size`, then
raise `RequestEntityTooLarge` when a cap is set and the new size
exceeds it.  The returned Bool is true when the exception is raised;
note the state mutation happens before the check, exactly as in the
source, so the mutated state is returned in either case. -/
def Body.append (b : Body) (data : Bytes) : Body × Bool :=
  let b' : Body := { b with stream := b.stream ++ [data], size := b.size + data.length }
  (b', match b'.max_content_length with
       | some m => decide (m < b'.size)
       | none => false)

/-- `Body.set_complete`: drain the whole queue (`get_nowait` until
`QueueEmpty`) into a buffer and set it as the future's result.  When the
future is already done, `Future.set_result` raises `InvalidStateError`
(returned Bool true): the queue has already been drained at that point
but the future keeps its old result. -/
def Body.set_complete (b : Body) : Body × Bool :=
  match b.body with
  | some _ => ({ b with stream := [] }, true)
  | none => ({ b with stream := [], body := some b.stream.flatten }, false)

/-- `Body.__anext__` as one atomic consumer step: when the body future
is done the iterator raises `StopAsyncIteration` (result `none`);
otherwise it dequeues the chunk at the front of the queue and subtracts
its length from `_size`.  A call finding the future pending and the
queue empty suspends, so it does not occur as a completed step in a
sequential trace (also `none`). -/
def Body.anext (b : Body) : Option (Bytes × Body) :=
  if b.body.isSome then none
  else
    match b.stream with
    | [] => none
    | c :: rest => some (c, { b with stream := rest, size := b.size - c.length })

/-- `Body.__await__`: reading the body future's result; `none` while the
future is still pending (the awaiter suspends). -/
def Body.awaitResult (b : Body) : Option Bytes := b.body

/-- Run the iterator until it raises `StopAsyncIteration` (or would
suspend forever), collecting the yielded chunks; `fuel` bounds the
recursion. -/
def drainFuel : Nat → Body → List Bytes
  | 0, _ => []
  | fuel + 1, b =>
    match b.anext with
    | none => []
    | some (c, b') => c :: drainFuel fuel b'

/-- Iterate the body to exhaustion: each `__anext__` step removes one
queued chunk, so `stream.length + 1` steps of fuel always suffice. -/
def Body.drain (b : Body) : List Bytes := drainFuel (b.stream.length + 1) b

/-- One producer or consumer call on a body: an `append` with a chunk, a
completed `__anext__` step, or `set_complete`. -/
inductive Op where
  | app (c : Bytes)
  | next
  | complete
deriving DecidableEq, Repr

/-- Execute one operation on a body paired with the list of chunks the
iterator has yielded so far. -/
def stepOp : Body × List Bytes → Op → Body × List Bytes
  | (b, ys), .app c => ((b.append c).1, ys)
  | (b, ys), .next =>
      match b.anext with
      | some (c, b') => (b', ys ++ [c])
      | none => (b, ys)
  | (b, ys), .complete => ((b.set_complete).1, ys)

/-- Execute a trace of operations from a body with no chunks yielded yet. -/
def runOps (b : Body) (ops : List Op) : Body × List Bytes := ops.foldl stepOp (b, [])

/-- Append a list of chunks in order, ignoring raised exceptions (the
state is mutated regardless). -/
def appendAll (b : Body) (chunks : List Bytes) : Body :=
  chunks.foldl (fun b c => (b.append c).1) b

/-- The exception flags of a sequence of appends, in order: entry i is
true exactly when the (i+1)-st append raises `RequestEntityTooLarge`. -/
def appendFlags (b : Body) : List Bytes → List Bool
  | [] => []
  | c :: rest => (b.append c).2 :: appendFlags (b.append c).1 rest

/-- Total byte length of a list of chunks. -/
def sumLens (l : List Bytes) : Nat := (l.map List.length).sum

/-- The chunks appended along a trace, in order. -/
def appsOf (ops : List Op) : List Bytes :=
  ops.filterMap fun o => match o with | .app c => some c | _ => none

/-- Strip leading and trailing whitespace from a character list. -/
def trimChars (l : List Char) : List Char :=
  ((l.dropWhile Char.isWhitespace).reverse.dropWhile Char.isWhitespace).reverse

/-- Split a character list on a separator character; n separators give
n+1 (possibly empty) groups, like Python's str.split with an explicit
separator. -/
def splitOnSep (sep : Char) : List Char → List (List Char)
  | [] => [[]]
  | c :: rest =>
    if c = sep then [] :: splitOnSep sep rest
    else
      match splitOnSep sep rest with
      | [] => [[c]]
      | g :: gs => (c :: g) :: gs

/-- The value of a nonempty all-digit character list, `none` otherwise. -/
def digitsToNat (l : List Char) : Option Nat :=
  if l ≠ [] ∧ l.all Char.isDigit then
    some (l.foldl (fun n c => 10 * n + (c.toNat - 48)) 0)
  else none

/-- Python `int(s)` on a decimal string: optional surrounding
whitespace, optional sign, then a nonempty run of digits; anything else
raises `ValueError` (`none`). -/
def pyInt (s : String) : Option Int :=
  match trimChars s.data with
  | '-' :: ds => (digitsToNat ds).map fun n => -(n : Int)
  | '+' :: ds => (digitsToNat ds).map fun n => (n : Int)
  | ds => (digitsToNat ds).map fun n => (n : Int)

/-- Modelled from the spec: the MultiDict container from
quart/datastructures.py is not part of the given sources; the spec
requires that repeated keys each produce a separate entry preserving
every occurrence, so it is modelled as an insertion-ordered list of
key/value pairs. -/
abbrev MultiDict := List (String × String)

/-- Setting a key on the MultiDict appends an entry, preserving earlier
occurrences of the same key (spec: must preserve every occurrence). -/
def MultiDict.add (d : MultiDict) (k v : String) : MultiDict := d ++ [(k, v)]

/-- All values stored under a key, in insertion order. -/
def MultiDict.values (d : MultiDict) (k : String) : List String :=
  d.filterMap fun p => if p.1 = k then some p.2 else none

/-- The fields of the `Request` class that the body claims depend on:
`method`, `path` and `headers` are held by the external base class and
omitted; `_form` and `_files` start out unset. -/
structure Request where
  max_content_length : Option Int
  body : Body
  form : Option MultiDict
  files : Option MultiDict
deriving Repr

/-- `Request.__init__` restricted to its body logic: `content_length`
is the result of the case-insensitive `headers.get` on Content-Length
(the header container is external).  When the header is present and
`max_content_length` is set, the header value is parsed with `int`
(`ValueError` when it does not parse) and compared; a value strictly
greater than the cap raises `RequestEntityTooLarge` before any body is
allocated.  Otherwise a `Body` with cap `max_content_length` is
allocated and `_form`/`_files` start as `None`. -/
def Request.init (content_length : Option String) (max_content_length : Option Int) :
    Except PyErr Request :=
  match content_length, max_content_length with
  | some s, some m =>
    match pyInt s with
    | none => .error .valueError
    | some v =>
      if m < v then .error .requestEntityTooLarge
      else .ok { max_content_length := some m, body := Body.init (some m),
                 form := none, files := none }
  | _, _ => .ok { max_content_length := max_content_length,
                  body := Body.init max_content_length, form := none, files := none }

/-- Value of a hexadecimal digit character. -/
def hexVal (c : Char) : Option Nat :=
  if c.isDigit then some (c.toNat - 48)
  else if 'a' ≤ c ∧ c ≤ 'f' then some (c.toNat - 87)
  else if 'A' ≤ c ∧ c ≤ 'F' then some (c.toNat - 55)
  else none

/-- Percent-decoding over a character list: plus becomes space, and a
percent sign followed by two hex digits becomes the character with that
code; a malformed escape is kept verbatim (as urllib does). -/
def unquoteChars : List Char → List Char
  | [] => []
  | '+' :: rest => ' ' :: unquoteChars rest
  | '%' :: h1 :: h2 :: rest =>
    match hexVal h1, hexVal h2 with
    | some a, some b => Char.ofNat (16 * a + b) :: unquoteChars rest
    | _, _ => '%' :: unquoteChars (h1 :: h2 :: rest)
  | c :: rest => c :: unquoteChars rest

/-- Split a character list at the first equals sign (Python's
str.split with maxsplit 1); `none` when there is no equals sign. -/
def breakOnEq : List Char → Option (List Char × List Char)
  | [] => none
  | c :: rest =>
    if c = '=' then some ([], rest)
    else (breakOnEq rest).map fun p => (c :: p.1, p.2)

/-- `urllib.parse.parse_qsl` (as called by `parse_qs` with default
arguments): the query string is split on ampersands and semicolons;
each nonempty field is split at the first equals sign; fields with no
equals sign or with an empty value are dropped (keep_blank_values is
false); names and values are percent-decoded. -/
def parse_qsl (qs : String) : List (String × String) :=
  ((splitOnSep '&' qs.data).flatMap fun s1 => splitOnSep ';' s1).filterMap fun nv =>
    if nv = [] then none
    else
      match breakOnEq nv with
      | none => none
      | some (name, value) =>
        if value = [] then none
        else some (String.mk (unquoteChars name), String.mk (unquoteChars value))

/-- `urllib.parse.parse_qs`: the pairs of `parse_qsl` grouped by key,
keys in first-occurrence order, each key's values in occurrence
order. -/
def parse_qs (qs : String) : List (String × List String) :=
  (parse_qsl qs).foldl
    (fun acc kv =>
      if acc.any fun e => e.1 = kv.1 then
        acc.map fun e => if e.1 = kv.1 then (e.1, e.2 ++ [kv.2]) else e
      else acc ++ [(kv.1, [kv.2])])
    []

/-- `cgi.parse_header` restricted to its first component: the media
type is the part of the header value before the first semicolon,
stripped of surrounding whitespace.  The parameter dictionary is not
used by the embedded code paths. -/
def parse_header (line : String) : String :=
  String.mk (trimChars (line.data.takeWhile fun c => c ≠ ';'))

/-- `Request._load_form_data` after the body has been awaited: `data`
is the assembled body (the claims' bodies are ASCII, so it is carried
as a string), `content_header` the result of `headers.get` on
Content-Type.  With no Content-Type both mappings stay empty; the
urlencoded branch feeds every `parse_qs` value into `_form` in order;
the multipart branch delegates to the external `cgi.FieldStorage`
parser, taken as the parameter `multipart`; any other media type
leaves both mappings empty. -/
def load_form_data (multipart : String → MultiDict × MultiDict)
    (content_header : Option String) (data : String) : MultiDict × MultiDict :=
  match content_header with
  | none => ([], [])
  | some h =>
    let content_type := parse_header h
    if content_type = "application/x-www-form-urlencoded" then
      ((parse_qs data).foldl
        (fun form kv => kv.2.foldl (fun f v => MultiDict.add f kv.1 v) form) [], [])
    else if content_type = "multipart/form-data" then multipart data
    else ([], [])

/-! Helper lemmas about the Body operations. -/

theorem set_complete_of_body_none (b : Body) (h : b.body = none) :
    b.set_complete = ({ b with stream := [], body := some b.stream.flatten }, false) := by
  unfold Body.set_complete
  rw [h]

theorem set_complete_of_body_some (b : Body) (v : Bytes) (h : b.body = some v) :
    b.set_complete = ({ b with stream := [] }, true) := by
  unfold Body.set_complete
  rw [h]

theorem append_fst (b : Body) (c : Bytes) :
    (b.append c).1
      = { b with stream := b.stream ++ [c], size := b.size + (c.length : Int) } := rfl

theorem appendAll_spec (chunks : List Bytes) : ∀ b : Body,
    (appendAll b chunks).stream = b.stream ++ chunks
    ∧ (appendAll b chunks).body = b.body
    ∧ (appendAll b chunks).size = b.size + (sumLens chunks : Int)
    ∧ (appendAll b chunks).max_content_length = b.max_content_length := by
  induction chunks with
  | nil => intro b; simp [appendAll, sumLens]
  | cons c rest ih =>
    intro b
    have h := ih (b.append c).1
    simpa [appendAll, append_fst, sumLens, List.foldl_cons, add_assoc] using h

theorem drain_of_body_some (b : Body) (h : b.body.isSome) : b.drain = [] := by
  unfold Body.drain drainFuel
  simp [Body.anext, h]

theorem appsOf_cons_app (c : Bytes) (ops : List Op) :
    appsOf (Op.app c :: ops) = c :: appsOf ops := rfl

theorem appsOf_cons_next (ops : List Op) : appsOf (Op.next :: ops) = appsOf ops := rfl

/-- Along a trace with no `set_complete`, the body future stays unset
and the bytes yielded by the iterator plus the bytes still queued are
exactly the bytes appended so far. -/
theorem foldl_no_complete (ops : List Op) : ∀ (b : Body) (ys : List Bytes),
    (∀ o ∈ ops, o ≠ Op.complete) → b.body = none →
    (ops.foldl stepOp (b, ys)).1.body = none
    ∧ (ops.foldl stepOp (b, ys)).2.flatten ++ (ops.foldl stepOp (b, ys)).1.stream.flatten
        = ys.flatten ++ b.stream.flatten ++ (appsOf ops).flatten := by
  induction ops with
  | nil => intro b ys _ hb; simp [appsOf, hb]
  | cons o rest ih =>
    intro b ys h hb
    have hrest : ∀ o ∈ rest, o ≠ Op.complete := fun o ho => h o (List.mem_cons_of_mem _ ho)
    match o with
    | .app c =>
      have step : stepOp (b, ys) (Op.app c) = ((b.append c).1, ys) := rfl
      have h1 := ih (b.append c).1 ys hrest (by simpa [append_fst] using hb)
      refine ⟨by simpa [List.foldl_cons, step] using h1.1, ?_⟩
      simp only [List.foldl_cons, step]
      rw [h1.2, appsOf_cons_app]
      simp [append_fst, List.append_assoc]
    | .next =>
      cases hs : b.stream with
      | nil =>
        have step : stepOp (b, ys) Op.next = (b, ys) := by
          simp [stepOp, Body.anext, hb, hs]
        have h1 := ih b ys hrest hb
        refine ⟨by simpa [List.foldl_cons, step] using h1.1, ?_⟩
        simp only [List.foldl_cons, step]
        rw [h1.2, hs, appsOf_cons_next]
      | cons c rest' =>
        have step : stepOp (b, ys) Op.next
            = ({ b with stream := rest', size := b.size - (c.length : Int) }, ys ++ [c]) := by
          simp [stepOp, Body.anext, hb, hs]
        have h1 := ih { b with stream := rest', size := b.size - (c.length : Int) }
          (ys ++ [c]) hrest (by simpa using hb)
        refine ⟨by simpa [List.foldl_cons, step] using h1.1, ?_⟩
        simp only [List.foldl_cons, step]
        rw [h1.2, appsOf_cons_next]
        simp [List.append_assoc]
    | .complete =>
      exact absurd rfl (h Op.complete (List.mem_cons_self _ _))

/-- Along a trace with no `set_complete`, `_size` stays equal to the
total length of the queued chunks. -/
theorem foldl_size_inv (ops : List Op) : ∀ (b : Body) (ys : List Bytes),
    (∀ o ∈ ops, o ≠ Op.complete) → b.size = (sumLens b.stream : Int) →
    (ops.foldl stepOp (b, ys)).1.size
      = (sumLens (ops.foldl stepOp (b, ys)).1.stream : Int) := by
  induction ops with
  | nil => intro b ys _ hb; simpa using hb
  | cons o rest ih =>
    intro b ys h hb
    have hrest : ∀ o ∈ rest, o ≠ Op.complete := fun o ho => h o (List.mem_cons_of_mem _ ho)
    match o with
    | .app c =>
      have step : stepOp (b, ys) (Op.app c) = ((b.append c).1, ys) := rfl
      have hinv : ((b.append c).1).size = (sumLens ((b.append c).1).stream : Int) := by
        simp [append_fst, sumLens, hb]
      simpa [List.foldl_cons, step] using ih (b.append c).1 ys hrest hinv
    | .next =>
      cases hdone : b.body with
      | some v =>
        have step : stepOp (b, ys) Op.next = (b, ys) := by
          simp [stepOp, Body.anext, hdone]
        simpa [List.foldl_cons, step] using ih b ys hrest hb
      | none =>
        cases hs : b.stream with
        | nil =>
          have step : stepOp (b, ys) Op.next = (b, ys) := by
            simp [stepOp, Body.anext, hdone, hs]
          simpa [List.foldl_cons, step] using ih b ys hrest hb
        | cons c rest' =>
          have step : stepOp (b, ys) Op.next
              = ({ b with stream := rest', size := b.size - (c.length : Int) }, ys ++ [c]) := by
            simp [stepOp, Body.anext, hdone, hs]
          have hinv : ({ b with stream := rest', size := b.size - (c.length : Int) } : Body).size
              = (sumLens ({ b with stream := rest', size := b.size - (c.length : Int) } : Body).stream : Int) := by
            rw [hs] at hb
            simp only [sumLens, List.map_cons, List.sum_cons] at hb ⊢
            push_cast at hb ⊢
            omega
          simpa [List.foldl_cons, step] using
            ih { b with stream := rest', size := b.size - (c.length : Int) } (ys ++ [c]) hrest hinv
    | .complete =>
      exact absurd rfl (h Op.complete (List.mem_cons_self _ _))

/-- Any trace of operations leaves the result of an already-resolved
body future untouched. -/
theorem foldl_body_some (ops : List Op) : ∀ (b : Body) (ys : List Bytes) (v : Bytes),
    b.body = some v → (ops.foldl stepOp (b, ys)).1.body = some v := by
  induction ops with
  | nil => intro b ys v hb; simpa using hb
  | cons o rest ih =>
    intro b ys v hb
    match o with
    | .app c =>
      exact (by simpa [List.foldl_cons] using ih (b.append c).1 ys v (by simpa [append_fst] using hb))
    | .next =>
      have step : stepOp (b, ys) Op.next = (b, ys) := by
        simp [stepOp, Body.anext, hb]
      simpa [List.foldl_cons, step] using ih b ys v hb
    | .complete =>
      have step : stepOp (b, ys) Op.complete = ({ b with stream := [] }, ys) := by
        simp [stepOp, set_complete_of_body_some b v hb]
      simpa [List.foldl_cons, step] using ih { b with stream := [] } ys v (by simpa using hb)

/-- The i-th append of a sequence raises exactly when the size counter
after it exceeds the cap. -/
theorem appendFlags_getD (chunks : List Bytes) : ∀ (b : Body) (cap : Int),
    b.max_content_length = some cap → ∀ i, i < chunks.length →
    (appendFlags b chunks).getD i false
      = decide (cap < b.size + (sumLens (chunks.take (i + 1)) : Int)) := by
  induction chunks with
  | nil => intro b cap _ i hi; exact absurd hi (by simp)
  | cons c rest ih =>
    intro b cap hcap i hi
    match i with
    | 0 =>
      simp only [appendFlags, List.getD_cons_zero, List.take_succ_cons, List.take_zero,
        Body.append, hcap]
      rw [decide_eq_decide]
      simp [sumLens]
    | i + 1 =>
      have hcap' : ((b.append c).1).max_content_length = some cap := hcap
      have h := ih (b.append c).1 cap hcap' i (by simpa using hi)
      simp only [appendFlags, List.getD_cons_succ]
      rw [h, decide_eq_decide]
      simp only [append_fst, List.take_succ_cons, sumLens, List.map_cons, List.sum_cons]
      push_cast
      constructor <;> intro <;> omega

/-! The claims. -/

/-- Claim C1: for every cap and every sequence of appended chunks
followed by a single `set_complete`, with no iteration step having
consumed any chunk, awaiting the body returns exactly the concatenation
of the chunks, byte for byte; for zero chunks it returns the empty byte
string. -/
theorem full_read_is_concat (cap : Option Int) (chunks : List Bytes) :
    Body.awaitResult ((appendAll (Body.init cap) chunks).set_complete).1
      = some chunks.flatten := by
  obtain ⟨hs, hb, -, -⟩ := appendAll_spec chunks (Body.init cap)
  rw [Body.awaitResult, set_complete_of_body_none _ (by rw [hb]; rfl)]
  rw [hs]
  rfl

/-- Claim C2, counterexample: append one chunk, then `set_complete`
while it is still pending; iterating to exhaustion yields no chunks at
all, so the concatenation of the yielded chunks differs from the
full-read result `[97]` of that same append sequence, and the pending
chunk is never yielded. -/
theorem iteration_drops_pending_chunks :
    ((((Body.init none).append [97]).1.set_complete).1.drain).flatten
      ≠ ([[97]] : List Bytes).flatten := by decide

/-- Claim C2, amended: along any trace of appends and iteration steps
followed by `set_complete`, the concatenation of the chunks yielded by
the iterator, followed by the bytes the completion moves into the body
future, equals the concatenation of all appended chunks; chunks still
pending at completion are delivered through the full-read result, and
the iterator, which terminates immediately once the future is done,
never yields them. -/
theorem iteration_accounting (cap : Option Int) (ops : List Op)
    (h : ∀ o ∈ ops, o ≠ Op.complete) :
    (runOps (Body.init cap) ops).2.flatten
        ++ ((((runOps (Body.init cap) ops).1.set_complete).1.body).getD [])
      = (appsOf ops).flatten
    ∧ (((runOps (Body.init cap) ops).1.set_complete).1).drain = [] := by
  obtain ⟨hbody, hsum⟩ := foldl_no_complete ops (Body.init cap) [] h rfl
  rw [runOps] at *
  constructor
  · rw [set_complete_of_body_none _ hbody]
    simpa using hsum
  · exact drain_of_body_some _ (by rw [set_complete_of_body_none _ hbody]; rfl)

/-- Claim C2, amended, witness: the trace appends `[1]`, iterates it,
appends `[2]` and completes; the iterator yielded `[1]` and the future
received `[2]`, together the appended concatenation `[1, 2]`. -/
theorem iteration_accounting_witness :
    (∀ o ∈ ([Op.app [1], Op.next, Op.app [2]] : List Op), o ≠ Op.complete)
    ∧ ((runOps (Body.init none) [Op.app [1], Op.next, Op.app [2]]).2.flatten
        ++ ((((runOps (Body.init none) [Op.app [1], Op.next, Op.app [2]]).1.set_complete).1.body).getD [])
      = (appsOf [Op.app [1], Op.next, Op.app [2]]).flatten
    ∧ (((runOps (Body.init none) [Op.app [1], Op.next, Op.app [2]]).1.set_complete).1).drain = []) :=
  ⟨by decide, iteration_accounting none [Op.app [1], Op.next, Op.app [2]] (by decide)⟩

/-- Claim C3: on a body constructed with cap `cap`, the i-th append of
a sequence raises `RequestEntityTooLarge` exactly when the cumulative
byte count of the first i+1 chunks exceeds the cap, and never while the
count stays at or below it. -/
theorem append_raises_iff_over_cap (cap : Int) (chunks : List Bytes) (i : Nat)
    (h : i < chunks.length) :
    (appendFlags (Body.init (some cap)) chunks).getD i false
      = decide (cap < (sumLens (chunks.take (i + 1)) : Int)) := by
  have := appendFlags_getD chunks (Body.init (some cap)) cap rfl i h
  simpa [Body.init] using this

/-- Claim C3, witness: with cap 10, appends of sizes 6 and 6 raise on
the second append, while appends of sizes 5 and 5 raise nowhere and
leave the size counter at 10. -/
theorem append_raises_iff_over_cap_witness :
    (1 < ([[65, 65, 65, 65, 65, 65], [66, 66, 66, 66, 66, 66]] : List Bytes).length
      ∧ (appendFlags (Body.init (some 10)) [[65, 65, 65, 65, 65, 65], [66, 66, 66, 66, 66, 66]]).getD 1 false = true)
    ∧ (appendFlags (Body.init (some 10)) [[65, 65, 65, 65, 65], [66, 66, 66, 66, 66]]).getD 0 false = false
    ∧ (appendFlags (Body.init (some 10)) [[65, 65, 65, 65, 65], [66, 66, 66, 66, 66]]).getD 1 false = false
    ∧ (appendAll (Body.init (some 10)) [[65, 65, 65, 65, 65], [66, 66, 66, 66, 66]]).size = 10 := by
  refine ⟨⟨by decide, ?_⟩, ?_, ?_, by decide⟩
  · exact (append_raises_iff_over_cap 10 _ 1 (by decide)).trans (by decide)
  · exact (append_raises_iff_over_cap 10 _ 0 (by decide)).trans (by decide)
  · exact (append_raises_iff_over_cap 10 _ 1 (by decide)).trans (by decide)

/-- Claim C4: constructing a request whose Content-Length header parses
to an integer strictly greater than a set `max_content_length` fails
with `RequestEntityTooLarge` before any body is allocated; when the
header is absent, the cap is unset, or the parsed value is not greater,
construction succeeds and allocates the body with cap equal to
`max_content_length`. -/
theorem request_init_cap_check :
    (∀ (s : String) (v m : Int), pyInt s = some v → m < v →
        Request.init (some s) (some m) = Except.error PyErr.requestEntityTooLarge)
    ∧ (∀ mcl : Option Int, Request.init none mcl
        = Except.ok { max_content_length := mcl, body := Body.init mcl,
                      form := none, files := none })
    ∧ (∀ cl : Option String, Request.init cl none
        = Except.ok { max_content_length := none, body := Body.init none,
                      form := none, files := none })
    ∧ (∀ (s : String) (v m : Int), pyInt s = some v → ¬ m < v →
        Request.init (some s) (some m)
        = Except.ok { max_content_length := some m, body := Body.init (some m),
                      form := none, files := none }) := by
  refine ⟨fun s v m hv hlt => ?_, fun mcl => ?_, fun cl => ?_, fun s v m hv hle => ?_⟩
  · simp [Request.init, hv, hlt]
  · cases mcl <;> rfl
  · cases cl <;> rfl
  · simp [Request.init, hv, hle]

/-- Claim C4, witness: a cap of 100 and a Content-Length header of 101
is rejected at construction, while a header of 100 constructs a request
whose body carries cap 100. -/
theorem request_init_cap_check_witness :
    (pyInt "101" = some 101 ∧ (100 : Int) < 101
      ∧ Request.init (some "101") (some 100) = Except.error PyErr.requestEntityTooLarge)
    ∧ (pyInt "100" = some 100 ∧ ¬ (100 : Int) < 100
      ∧ Request.init (some "100") (some 100)
        = Except.ok { max_content_length := some 100, body := Body.init (some 100),
                      form := none, files := none }) :=
  ⟨⟨by decide, by decide, request_init_cap_check.1 "101" 101 100 (by decide) (by decide)⟩,
   ⟨by decide, by decide,
    request_init_cap_check.2.2.2 "100" 100 100 (by decide) (by decide)⟩⟩

/-- Claim C5, counterexample: append one byte and complete;
`set_complete` drains the pending queue without resetting `_size`, so
afterwards `_size` is 1 while the pending queue is empty, and the
claimed invariant fails. -/
theorem size_invariant_fails_after_complete :
    ¬ ((((Body.init none).append [97]).1.set_complete).1.size
        = (sumLens (((Body.init none).append [97]).1.set_complete).1.stream : Int)) := by
  decide

/-- Claim C5, amended: in every state reachable from a fresh body by
appends and iteration steps alone, `_size` equals the total length of
the chunks in the pending queue; `set_complete` breaks the equality by
emptying the queue while leaving `_size` at the byte count it moved
into the body future. -/
theorem size_matches_pending (cap : Option Int) (ops : List Op)
    (h : ∀ o ∈ ops, o ≠ Op.complete) :
    (runOps (Body.init cap) ops).1.size
      = (sumLens (runOps (Body.init cap) ops).1.stream : Int) := by
  rw [runOps]
  exact foldl_size_inv ops (Body.init cap) [] h (by simp [Body.init, sumLens])

/-- Claim C5, amended, witness: after appending two chunks and
consuming one, the size counter 1 matches the single pending byte. -/
theorem size_matches_pending_witness :
    (∀ o ∈ ([Op.app [1, 2], Op.next, Op.app [3]] : List Op), o ≠ Op.complete)
    ∧ (runOps (Body.init (some 5)) [Op.app [1, 2], Op.next, Op.app [3]]).1.size
      = (sumLens (runOps (Body.init (some 5)) [Op.app [1, 2], Op.next, Op.app [3]]).1.stream : Int) :=
  ⟨by decide, size_matches_pending (some 5) [Op.app [1, 2], Op.next, Op.app [3]] (by decide)⟩

/-- Claim C6: once the body future holds a result, awaiting it after
any further trace of appends, iteration steps and completion calls
still returns the same bytes; the full-read value is fixed at
completion and every awaiter observes the same value. -/
theorem full_read_idempotent (b : Body) (v : Bytes) (hb : b.body = some v)
    (ops : List Op) :
    Body.awaitResult (runOps b ops).1 = some v := by
  rw [Body.awaitResult, runOps]
  exact foldl_body_some ops b [] v hb

/-- Claim C6, witness: a body completed with `[97]` still awaits to
`[97]` after a further append, iteration step and completion call. -/
theorem full_read_idempotent_witness :
    ((((Body.init none).append [97]).1.set_complete).1.body = some [97])
    ∧ Body.awaitResult
        (runOps (((Body.init none).append [97]).1.set_complete).1
          [Op.app [1], Op.next, Op.complete]).1 = some [97] :=
  ⟨by decide,
   full_read_idempotent (((Body.init none).append [97]).1.set_complete).1 [97]
     (by decide) [Op.app [1], Op.next, Op.complete]⟩

/-- Claim C7: a completed body `a=1&a=2&b=3` under content type
application/x-www-form-urlencoded parses to a form in which key a
carries both values 1 and 2 and key b carries 3 — every occurrence of
the repeated key preserved — and files stays empty, for any behaviour
of the external multipart parser. -/
theorem form_urlencoded_repeats (multipart : String → MultiDict × MultiDict) :
    MultiDict.values (load_form_data multipart
        (some "application/x-www-form-urlencoded") "a=1&a=2&b=3").1 "a" = ["1", "2"]
    ∧ MultiDict.values (load_form_data multipart
        (some "application/x-www-form-urlencoded") "a=1&a=2&b=3").1 "b" = ["3"]
    ∧ (load_form_data multipart
        (some "application/x-www-form-urlencoded") "a=1&a=2&b=3").2 = [] :=
  ⟨by rfl, by rfl, by rfl⟩

/-- Claim C8: with no Content-Type header, or with any media type other
than application/x-www-form-urlencoded and multipart/form-data, loading
the form data of a completed body yields two empty mappings. -/
theorem other_content_type_empty (multipart : String → MultiDict × MultiDict)
    (data : String) (ct : Option String)
    (h : ct = none ∨ ∃ s, ct = some s
        ∧ parse_header s ≠ "application/x-www-form-urlencoded"
        ∧ parse_header s ≠ "multipart/form-data") :
    load_form_data multipart ct data = ([], []) := by
  rcases h with h | ⟨s, hs, h1, h2⟩
  · rw [h]; rfl
  · rw [hs]
    simp [load_form_data, h1, h2]

/-- Claim C8, witness: content type text/plain leaves both mappings
empty, whatever the external multipart parser would return. -/
theorem other_content_type_empty_witness :
    load_form_data (fun _ => ([("k", "v")], [("f", "g")]))
      (some "text/plain; charset=utf-8") "a=1" = ([], []) :=
  other_content_type_empty _ "a=1" (some "text/plain; charset=utf-8")
    (Or.inr ⟨"text/plain; charset=utf-8", rfl, by decide, by decide⟩)

/-- Claim C9: when an append raises `RequestEntityTooLarge`, the state
has already been mutated: the offending chunk sits at the tail of the
pending queue and `_size` includes its length, so completing the body
afterwards delivers a full-read result that ends with the over-cap
chunk's bytes. -/
theorem append_mutates_before_raising (b : Body) (c : Bytes)
    (h : (b.append c).2 = true) :
    (b.append c).1.stream = b.stream ++ [c]
    ∧ (b.append c).1.size = b.size + (c.length : Int)
    ∧ (b.body = none →
        Body.awaitResult ((b.append c).1.set_complete).1
          = some (b.stream.flatten ++ c)) := by
  refine ⟨rfl, rfl, fun hb => ?_⟩
  rw [Body.awaitResult, set_complete_of_body_none _ (show ((b.append c).1).body = none from hb)]
  simp [append_fst]

/-- Claim C9, witness: with cap 1, appending two bytes raises, yet the
chunk is queued with the size counter at 2, and completing afterwards
makes the full read return those very bytes. -/
theorem append_mutates_before_raising_witness :
    (((Body.init (some 1)).append [97, 98]).2 = true)
    ∧ ((Body.init (some 1)).append [97, 98]).1.stream = (Body.init (some 1)).stream ++ [[97, 98]]
    ∧ ((Body.init (some 1)).append [97, 98]).1.size
        = (Body.init (some 1)).size + (([97, 98] : Bytes).length : Int)
    ∧ Body.awaitResult (((Body.init (some 1)).append [97, 98]).1.set_complete).1
        = some ((Body.init (some 1)).stream.flatten ++ [97, 98]) := by
  have h := append_mutates_before_raising (Body.init (some 1)) [97, 98] (by decide)
  exact ⟨by decide, h.1, h.2.1, h.2.2 (by decide)⟩

/-- Claim C10: appending after the body future has been resolved raises
nothing as long as the cap is respected; the chunk is enqueued but the
already-fixed full-read result is unchanged, so its bytes never become
part of the assembled body returned by awaiting. -/
theorem append_after_complete_harmless (b : Body) (c v : Bytes)
    (hb : b.body = some v)
    (hcap : b.max_content_length = none
        ∨ ∃ m, b.max_content_length = some m ∧ b.size + (c.length : Int) ≤ m) :
    (b.append c).2 = false
    ∧ Body.awaitResult (b.append c).1 = some v
    ∧ (b.append c).1.stream = b.stream ++ [c] := by
  refine ⟨?_, hb, rfl⟩
  rcases hcap with h | ⟨m, hm, hle⟩
  · simp [Body.append, h]
  · simp only [Body.append, hm, decide_eq_false_iff_not, not_lt]
    exact hle

/-- Claim C10, witness: appending `[97]` to an uncapped body completed
empty raises nothing, enqueues the chunk, and awaiting still returns
the empty byte string. -/
theorem append_after_complete_harmless_witness :
    ((((Body.init none).set_complete).1.body = some [])
      ∧ (((Body.init none).set_complete).1.max_content_length = none
          ∨ ∃ m, (((Body.init none).set_complete).1.max_content_length = some m
              ∧ (((Body.init none).set_complete).1.size + (([97] : Bytes).length : Int) ≤ m))))
    ∧ ((((Body.init none).set_complete).1.append [97]).2 = false
      ∧ Body.awaitResult (((Body.init none).set_complete).1.append [97]).1 = some []
      ∧ (((Body.init none).set_complete).1.append [97]).1.stream
          = ((Body.init none).set_complete).1.stream ++ [[97]]) :=
  ⟨⟨by decide, Or.inl (by decide)⟩,
   append_after_complete_harmless (((Body.init none).set_complete).1) [97] []
     (by decide) (Or.inl (by decide))⟩

end Quart
